import Mathlib

/-!
Shallow embedding of `src/liquiditypool_defi.py`, class `LiquidityPool`
(the pool-accounting engine and its settlement-gated state updates).

Modelling conventions:
* Python float amounts are modelled as exact rationals (`ℚ`).
* The Python dict `lp_tokens` is modelled as an association list with
  dict semantics: `lpGet` is `d.get(k, 0)`, `lpMem` is `k in d`,
  `lpSet` is `d[k] = v` (update in place, else append — Python dicts
  keep insertion order), `lpDel` is `del d[k]`.
* The network side (building the two transactions, signing the atomic
  group, `send_transactions` + `wait_for_confirmation`) is modelled by a
  `GroupResult` parameter: `confirmed` means the group reached finality,
  `failed` means `send_transactions`/`wait_for_confirmation` raised, in
  which case the exception propagates and the state updates that follow
  the confirmation call in the Python source never run.
* Each method returns the new pool state together with an `OpResult`
  naming the code path taken: `committed` (updates applied),
  `settlementError` (exception from the gateway propagated),
  `insufficientBalanceReturn` (the silent early return in
  `add_liquidity`), `keyError` (the raising dict access
  `self.lp_tokens[provider.address]` in `remove_liquidity`),
  `noLpTokens` (the silent early return in `remove_liquidity`).
-/

abbrev Addr := String

/-- Python `d.get(k, 0)`: value of the first entry with key `k`, else `0`. -/
def lpGet : List (Addr × ℚ) → Addr → ℚ
  | [], _ => 0
  | (a, v) :: rest, k => if a = k then v else lpGet rest k

/-- Python `k in d`. -/
def lpMem : List (Addr × ℚ) → Addr → Bool
  | [], _ => false
  | (a, _) :: rest, k => if a = k then true else lpMem rest k

/-- Python `d[k] = v`: replace the entry in place if the key is present,
otherwise append (Python dicts keep insertion order). -/
def lpSet : List (Addr × ℚ) → Addr → ℚ → List (Addr × ℚ)
  | [], k, v => [(k, v)]
  | (a, w) :: rest, k, v =>
    if a = k then (k, v) :: rest else (a, w) :: lpSet rest k v

/-- Python `del d[k]`. -/
def lpDel : List (Addr × ℚ) → Addr → List (Addr × ℚ)
  | [], _ => []
  | (a, w) :: rest, k =>
    if a = k then lpDel rest k else (a, w) :: lpDel rest k

/-- `sum(d.values())`. -/
def lpSum : List (Addr × ℚ) → ℚ
  | [] => 0
  | (_, v) :: rest => v + lpSum rest

/-- The pool ledger: fields of `LiquidityPool.__init__`. -/
structure PoolState where
  pool_ALGO : ℚ
  pool_UCTZAR : ℚ
  total_lp_tokens : ℚ
  lp_tokens : List (Addr × ℚ)
deriving DecidableEq, Repr

/-- `LiquidityPool.__init__`: zero reserves, zero shares, empty mapping. -/
def initPool : PoolState :=
  { pool_ALGO := 0, pool_UCTZAR := 0, total_lp_tokens := 0, lp_tokens := [] }

/-- Outcome of the atomic settlement group (external gateway). -/
inductive GroupResult
  | confirmed
  | failed
deriving DecidableEq, Repr

/-- Code path taken by a `LiquidityPool` method. `zeroDivisionError` is
Python's `ZeroDivisionError` raised by `tokens / self.total_lp_tokens`
in `remove_liquidity` when `total_lp_tokens` is zero while the
provider's entry is not — it occurs before any leg is built. -/
inductive OpResult
  | committed
  | settlementError
  | insufficientBalanceReturn
  | keyError
  | noLpTokens
  | zeroDivisionError
deriving DecidableEq, Repr

/-- `LiquidityPool.add_liquidity`. `provider_balance` is the value of
`provider.check_balance()` (external chain read). The only check is
`provider.check_balance() < (amount_algo + 0.001)`, which prints and
returns with no exception; otherwise the two legs are submitted and, on
confirmation, reserves grow by the deposited amounts and
`amount_algo + amount_uctzar` LP tokens are minted to the provider. -/
def add_liquidity (s : PoolState) (provider_balance : ℚ) (provider : Addr)
    (amount_algo amount_uctzar : ℚ) (gw : GroupResult) : PoolState × OpResult :=
  if provider_balance < amount_algo + 1/1000 then
    (s, .insufficientBalanceReturn)
  else
    match gw with
    | .failed => (s, .settlementError)
    | .confirmed =>
      let lp_token_amount := amount_algo + amount_uctzar
      ({ pool_ALGO := s.pool_ALGO + amount_algo
         pool_UCTZAR := s.pool_UCTZAR + amount_uctzar
         total_lp_tokens := s.total_lp_tokens + lp_token_amount
         lp_tokens := lpSet s.lp_tokens provider
           (lpGet s.lp_tokens provider + lp_token_amount) },
       .committed)

/-- `LiquidityPool.trade_algo_uctzar`: fee `0.3%`, `net = amount - fee`,
output `net * 2` UCTZAR. No validation of any kind is performed; on
confirmation `pool_ALGO` grows by `net` (not by `amount`), `pool_UCTZAR`
shrinks by the output, and `net + output` LP tokens go to the trader. -/
def trade_algo_uctzar (s : PoolState) (trader : Addr) (amount_algo : ℚ)
    (gw : GroupResult) : PoolState × OpResult :=
  let trade_fee := amount_algo * (3/1000)
  let net_amount_algo := amount_algo - trade_fee
  let amount_uctzar := net_amount_algo * 2
  match gw with
  | .failed => (s, .settlementError)
  | .confirmed =>
    let lp_token_amount := net_amount_algo + amount_uctzar
    ({ pool_ALGO := s.pool_ALGO + net_amount_algo
       pool_UCTZAR := s.pool_UCTZAR - amount_uctzar
       total_lp_tokens := s.total_lp_tokens + lp_token_amount
       lp_tokens := lpSet s.lp_tokens trader
         (lpGet s.lp_tokens trader + lp_token_amount) },
     .committed)

/-- `LiquidityPool.trade_uctzar_algo`: fee `0.3%`, `net = amount - fee`,
output `net / 2` ALGO. Mirror image of `trade_algo_uctzar`. -/
def trade_uctzar_algo (s : PoolState) (trader : Addr) (amount_uctzar : ℚ)
    (gw : GroupResult) : PoolState × OpResult :=
  let trade_fee := amount_uctzar * (3/1000)
  let net_amount_uctzar := amount_uctzar - trade_fee
  let amount_algo := net_amount_uctzar / 2
  match gw with
  | .failed => (s, .settlementError)
  | .confirmed =>
    let lp_token_amount := net_amount_uctzar + amount_algo
    ({ pool_ALGO := s.pool_ALGO - amount_algo
       pool_UCTZAR := s.pool_UCTZAR + net_amount_uctzar
       total_lp_tokens := s.total_lp_tokens + lp_token_amount
       lp_tokens := lpSet s.lp_tokens trader
         (lpGet s.lp_tokens trader + lp_token_amount) },
     .committed)

/-- `LiquidityPool.remove_liquidity`. `self.lp_tokens[provider.address]`
raises `KeyError` when the provider is absent; a zero entry prints and
returns; the division `tokens / self.total_lp_tokens` raises
`ZeroDivisionError` when `total_lp_tokens` is zero (still before any
leg is built). Otherwise the full position is paid out proportionally
and the provider's entry is deleted. -/
def remove_liquidity (s : PoolState) (provider : Addr)
    (gw : GroupResult) : PoolState × OpResult :=
  if lpMem s.lp_tokens provider = false then
    (s, .keyError)
  else
    let tokens := lpGet s.lp_tokens provider
    if tokens = 0 then
      (s, .noLpTokens)
    else if s.total_lp_tokens = 0 then
      (s, .zeroDivisionError)
    else
      let provider_share := tokens / s.total_lp_tokens
      let algo_share := provider_share * s.pool_ALGO
      let uctzar_share := provider_share * s.pool_UCTZAR
      match gw with
      | .failed => (s, .settlementError)
      | .confirmed =>
        ({ pool_ALGO := s.pool_ALGO - algo_share
           pool_UCTZAR := s.pool_UCTZAR - uctzar_share
           total_lp_tokens := s.total_lp_tokens - tokens
           lp_tokens := lpDel s.lp_tokens provider },
         .committed)

/-- One pool operation together with the external inputs it reads
(`balance` is the provider's chain balance seen by `check_balance`). -/
inductive Op
  | add (balance : ℚ) (provider : Addr) (amount_algo amount_uctzar : ℚ)
  | swapAB (trader : Addr) (amount_algo : ℚ)
  | swapBA (trader : Addr) (amount_uctzar : ℚ)
  | remove (provider : Addr)
deriving DecidableEq, Repr

/-- Dispatch one operation with a given gateway outcome. -/
def runOp (s : PoolState) (op : Op) (gw : GroupResult) : PoolState × OpResult :=
  match op with
  | .add balance provider aa au => add_liquidity s balance provider aa au gw
  | .swapAB trader a => trade_algo_uctzar s trader a gw
  | .swapBA trader a => trade_uctzar_algo s trader a gw
  | .remove provider => remove_liquidity s provider gw

/-- Run a sequence of operations, each with its gateway outcome. -/
def runOps (s : PoolState) : List (Op × GroupResult) → PoolState
  | [] => s
  | (op, gw) :: rest => runOps (runOp s op gw).1 rest

/-- Output of an ALGO→UCTZAR swap as a function of its input. -/
def swapABout (amount : ℚ) : ℚ := (amount - amount * (3/1000)) * 2

/-- Output of a UCTZAR→ALGO swap as a function of its input. -/
def swapBAout (amount : ℚ) : ℚ := (amount - amount * (3/1000)) / 2

/-- Invariant I1: reserves and total share supply are non-negative. -/
def I1 (s : PoolState) : Prop :=
  0 ≤ s.pool_ALGO ∧ 0 ≤ s.pool_UCTZAR ∧ 0 ≤ s.total_lp_tokens

/-- Invariant I2: zero total shares exactly when both reserves are zero. -/
def I2 (s : PoolState) : Prop :=
  s.total_lp_tokens = 0 ↔ (s.pool_ALGO = 0 ∧ s.pool_UCTZAR = 0)

/-- Invariant I3: recorded per-participant shares sum to `total_lp_tokens`. -/
def I3 (s : PoolState) : Prop :=
  lpSum s.lp_tokens = s.total_lp_tokens

/-- Invariant I4: no recorded share exceeds `total_lp_tokens`. -/
def I4 (s : PoolState) : Prop :=
  ∀ p ∈ s.lp_tokens, p.2 ≤ s.total_lp_tokens

/-- Strengthened invariant used for the induction: I1–I4 together with
the structural facts that the dict has no duplicate keys and that every
recorded share balance is non-negative. -/
def InvAux (s : PoolState) : Prop :=
  I1 s ∧ I2 s ∧ I3 s ∧ I4 s ∧
    (s.lp_tokens.map Prod.fst).Nodup ∧ ∀ q ∈ s.lp_tokens, 0 ≤ q.2

/-- Engine preconditions of the specification that the Python code does
not check: positive amounts, and for a swap that the computed output
does not exceed the current reserve of the output asset. -/
def Guard (s : PoolState) : Op → Prop
  | .add _ _ aa au => 0 < aa ∧ 0 < au
  | .swapAB _ a => 0 < a ∧ swapABout a ≤ s.pool_UCTZAR
  | .swapBA _ a => 0 < a ∧ swapBAout a ≤ s.pool_ALGO
  | .remove _ => True

/-- A run in which every operation satisfies `Guard` at the state it
actually executes against. -/
def GuardedRun : PoolState → List (Op × GroupResult) → Prop
  | _, [] => True
  | s, (op, gw) :: rest => Guard s op ∧ GuardedRun (runOp s op gw).1 rest

theorem lpGet_lpSet_self (l : List (Addr × ℚ)) (k : Addr) (v : ℚ) :
    lpGet (lpSet l k v) k = v := by
  induction l with
  | nil => simp [lpSet, lpGet]
  | cons p rest ih =>
    obtain ⟨a, w⟩ := p
    by_cases h : a = k
    · simp [lpSet, h, lpGet]
    · simp [lpSet, h, lpGet, ih]

theorem lpSum_lpSet (l : List (Addr × ℚ)) (k : Addr) (v : ℚ) :
    lpSum (lpSet l k v) = lpSum l - lpGet l k + v := by
  induction l with
  | nil => simp [lpSet, lpGet, lpSum]
  | cons p rest ih =>
    obtain ⟨a, w⟩ := p
    by_cases h : a = k
    · simp [lpSet, h, lpGet, lpSum]
      ring
    · simp [lpSet, h, lpGet, lpSum, ih]
      ring

theorem mem_lpSet (l : List (Addr × ℚ)) (k : Addr) (v : ℚ) (q : Addr × ℚ)
    (hq : q ∈ lpSet l k v) : q = (k, v) ∨ q ∈ l := by
  induction l with
  | nil => simpa [lpSet] using hq
  | cons p rest ih =>
    obtain ⟨a, w⟩ := p
    by_cases h : a = k
    · simp [lpSet, h] at hq
      rcases hq with h' | h'
      · exact Or.inl h'
      · exact Or.inr (List.mem_cons_of_mem _ h')
    · simp [lpSet, h] at hq
      rcases hq with h' | h'
      · exact Or.inr (by simp [h'])
      · rcases ih h' with h'' | h''
        · exact Or.inl h''
        · exact Or.inr (List.mem_cons_of_mem _ h'')

theorem lpMem_iff_mem_keys (l : List (Addr × ℚ)) (k : Addr) :
    lpMem l k = true ↔ k ∈ l.map Prod.fst := by
  induction l with
  | nil => simp [lpMem]
  | cons p rest ih =>
    obtain ⟨a, w⟩ := p
    by_cases h : a = k
    · simp [lpMem, h]
    · simp [lpMem, h, ih, Ne.symm h]

theorem keys_lpSet_of_mem (l : List (Addr × ℚ)) (k : Addr) (v : ℚ)
    (h : lpMem l k = true) :
    (lpSet l k v).map Prod.fst = l.map Prod.fst := by
  induction l with
  | nil => simp [lpMem] at h
  | cons p rest ih =>
    obtain ⟨a, w⟩ := p
    by_cases ha : a = k
    · simp [lpSet, ha]
    · simp [lpMem, ha] at h
      simp [lpSet, ha, ih h]

theorem keys_lpSet_of_not_mem (l : List (Addr × ℚ)) (k : Addr) (v : ℚ)
    (h : lpMem l k = false) :
    (lpSet l k v).map Prod.fst = l.map Prod.fst ++ [k] := by
  induction l with
  | nil => simp [lpSet]
  | cons p rest ih =>
    obtain ⟨a, w⟩ := p
    by_cases ha : a = k
    · simp [lpMem, ha] at h
    · simp [lpMem, ha] at h
      simp [lpSet, ha, ih h]

theorem lpSet_append_of_not_mem (l : List (Addr × ℚ)) (k : Addr) (v : ℚ)
    (h : lpMem l k = false) : lpSet l k v = l ++ [(k, v)] := by
  induction l with
  | nil => simp [lpSet]
  | cons p rest ih =>
    obtain ⟨a, w⟩ := p
    by_cases ha : a = k
    · simp [lpMem, ha] at h
    · simp [lpMem, ha] at h
      simp [lpSet, ha, ih h]

theorem nodupKeys_lpSet (l : List (Addr × ℚ)) (k : Addr) (v : ℚ)
    (h : (l.map Prod.fst).Nodup) : ((lpSet l k v).map Prod.fst).Nodup := by
  cases hm : lpMem l k with
  | true => rw [keys_lpSet_of_mem l k v hm]; exact h
  | false =>
    rw [keys_lpSet_of_not_mem l k v hm]
    have hk : k ∉ l.map Prod.fst := by
      intro hk
      rw [← lpMem_iff_mem_keys] at hk
      rw [hm] at hk
      cases hk
    simp [List.nodup_append, h, hk]

theorem lpGet_eq_zero_of_not_mem (l : List (Addr × ℚ)) (k : Addr)
    (h : lpMem l k = false) : lpGet l k = 0 := by
  induction l with
  | nil => simp [lpGet]
  | cons p rest ih =>
    obtain ⟨a, w⟩ := p
    by_cases ha : a = k
    · simp [lpMem, ha] at h
    · simp [lpMem, ha] at h
      simp [lpGet, ha, ih h]

theorem lpDel_eq_of_not_mem (l : List (Addr × ℚ)) (k : Addr)
    (h : lpMem l k = false) : lpDel l k = l := by
  induction l with
  | nil => simp [lpDel]
  | cons p rest ih =>
    obtain ⟨a, w⟩ := p
    by_cases ha : a = k
    · simp [lpMem, ha] at h
    · simp [lpMem, ha] at h
      simp [lpDel, ha, ih h]

theorem lpSum_lpDel (l : List (Addr × ℚ)) (k : Addr)
    (h : (l.map Prod.fst).Nodup) :
    lpSum (lpDel l k) = lpSum l - lpGet l k := by
  induction l with
  | nil => simp [lpDel, lpSum, lpGet]
  | cons p rest ih =>
    obtain ⟨a, w⟩ := p
    simp only [List.map_cons, List.nodup_cons] at h
    by_cases ha : a = k
    · have hrest : lpMem rest k = false := by
        cases hm : lpMem rest k with
        | false => rfl
        | true =>
          exact absurd (ha ▸ (lpMem_iff_mem_keys rest k).mp hm) h.1
      simp [lpDel, ha, lpGet, lpDel_eq_of_not_mem rest k hrest, lpSum]
    · simp [lpDel, ha, lpGet, lpSum, ih h.2]
      ring

theorem mem_lpDel (l : List (Addr × ℚ)) (k : Addr) (q : Addr × ℚ)
    (hq : q ∈ lpDel l k) : q ∈ l ∧ q.1 ≠ k := by
  induction l with
  | nil => simp [lpDel] at hq
  | cons p rest ih =>
    obtain ⟨a, w⟩ := p
    by_cases ha : a = k
    · simp [lpDel, ha] at hq
      exact ⟨List.mem_cons_of_mem _ (ih hq).1, (ih hq).2⟩
    · simp [lpDel, ha] at hq
      rcases hq with h' | h'
      · refine ⟨by simp [h'], ?_⟩
        simp [h', ha]
      · exact ⟨List.mem_cons_of_mem _ (ih h').1, (ih h').2⟩

theorem keys_lpDel_sublist (l : List (Addr × ℚ)) (k : Addr) :
    ((lpDel l k).map Prod.fst).Sublist (l.map Prod.fst) := by
  induction l with
  | nil => simp [lpDel]
  | cons p rest ih =>
    obtain ⟨a, w⟩ := p
    by_cases ha : a = k
    · simp only [lpDel, if_pos ha, List.map_cons]
      exact ih.cons _
    · simp only [lpDel, if_neg ha, List.map_cons]
      exact ih.cons₂ _

theorem lpMem_lpDel_self (l : List (Addr × ℚ)) (k : Addr) :
    lpMem (lpDel l k) k = false := by
  induction l with
  | nil => simp [lpDel, lpMem]
  | cons p rest ih =>
    obtain ⟨a, w⟩ := p
    by_cases ha : a = k
    · simp [lpDel, ha, ih]
    · simp [lpDel, lpMem, ha, ih]

theorem lpGet_mem (l : List (Addr × ℚ)) (k : Addr)
    (h : lpMem l k = true) : (k, lpGet l k) ∈ l := by
  induction l with
  | nil => simp [lpMem] at h
  | cons p rest ih =>
    obtain ⟨a, w⟩ := p
    by_cases ha : a = k
    · simp [lpGet, ha]
    · simp [lpMem, ha] at h
      simp [lpGet, ha]
      exact Or.inr (ih h)

theorem lpGet_nonneg (l : List (Addr × ℚ)) (k : Addr)
    (h : ∀ q ∈ l, 0 ≤ q.2) : 0 ≤ lpGet l k := by
  cases hm : lpMem l k with
  | false => rw [lpGet_eq_zero_of_not_mem l k hm]
  | true => exact h _ (lpGet_mem l k hm)

theorem lpGet_le (l : List (Addr × ℚ)) (k : Addr) (c : ℚ) (hc : 0 ≤ c)
    (h : ∀ q ∈ l, q.2 ≤ c) : lpGet l k ≤ c := by
  cases hm : lpMem l k with
  | false => rw [lpGet_eq_zero_of_not_mem l k hm]; exact hc
  | true => exact h _ (lpGet_mem l k hm)

theorem lpSum_nonneg (l : List (Addr × ℚ)) (h : ∀ r ∈ l, 0 ≤ r.2) :
    0 ≤ lpSum l := by
  induction l with
  | nil => simp [lpSum]
  | cons p rest ih =>
    have h0 : 0 ≤ p.2 := h p (by simp)
    have hrest : 0 ≤ lpSum rest := by
      refine ih ?_
      intro x hx
      exact h x (by simp [hx])
    obtain ⟨pa, pv⟩ := p
    simp only [lpSum]
    simp at h0
    linarith

theorem member_le_lpSum (l : List (Addr × ℚ)) (q : Addr × ℚ)
    (hq : q ∈ l) (h : ∀ r ∈ l, 0 ≤ r.2) : q.2 ≤ lpSum l := by
  induction l with
  | nil => simp at hq
  | cons p rest ih =>
    have hrestnn : ∀ x ∈ rest, 0 ≤ x.2 := by
      intro x hx
      exact h x (by simp [hx])
    rcases List.mem_cons.mp hq with h' | h'
    · subst h'
      have hrest : 0 ≤ lpSum rest := lpSum_nonneg rest hrestnn
      obtain ⟨qa, qv⟩ := q
      simp only [lpSum]
      linarith
    · have h2 : q.2 ≤ lpSum rest := ih h' hrestnn
      have h0 : 0 ≤ p.2 := h p (by simp)
      obtain ⟨pa, pv⟩ := p
      simp only [lpSum]
      simp at h0
      linarith
theorem InvAux_credit (s : PoolState) (k : Addr) (m dA dU : ℚ)
    (s' : PoolState) (hs : InvAux s)
    (hA' : s'.pool_ALGO = s.pool_ALGO + dA)
    (hU' : s'.pool_UCTZAR = s.pool_UCTZAR + dU)
    (hT' : s'.total_lp_tokens = s.total_lp_tokens + m)
    (hl' : s'.lp_tokens = lpSet s.lp_tokens k (lpGet s.lp_tokens k + m))
    (hA : 0 ≤ s.pool_ALGO + dA) (hU : 0 ≤ s.pool_UCTZAR + dU)
    (hpos : 0 < s.pool_ALGO + dA ∨ 0 < s.pool_UCTZAR + dU)
    (hm : 0 < m) : InvAux s' := by
  obtain ⟨⟨h1a, h1b, h1c⟩, h2, h3, h4, h5, h6⟩ := hs
  have h3' : lpSum s.lp_tokens = s.total_lp_tokens := h3
  have h4' : ∀ q ∈ s.lp_tokens, q.2 ≤ s.total_lp_tokens := h4
  refine ⟨⟨?_, ?_, ?_⟩, ?_, ?_, ?_, ?_, ?_⟩
  · rw [hA']
    exact hA
  · rw [hU']
    exact hU
  · rw [hT']
    linarith
  · show s'.total_lp_tokens = 0 ↔ (s'.pool_ALGO = 0 ∧ s'.pool_UCTZAR = 0)
    rw [hT', hA', hU']
    refine iff_of_false (by linarith) ?_
    rcases hpos with hp | hp
    · intro hcon
      exact absurd hcon.1 (ne_of_gt hp)
    · intro hcon
      exact absurd hcon.2 (ne_of_gt hp)
  · show lpSum s'.lp_tokens = s'.total_lp_tokens
    rw [hl', hT', lpSum_lpSet, h3']
    ring
  · show ∀ q ∈ s'.lp_tokens, q.2 ≤ s'.total_lp_tokens
    rw [hl', hT']
    intro q hq
    rcases mem_lpSet _ _ _ q hq with rfl | hql
    · show lpGet s.lp_tokens k + m ≤ s.total_lp_tokens + m
      have := lpGet_le s.lp_tokens k s.total_lp_tokens h1c h4'
      linarith
    · have := h4' q hql
      linarith
  · rw [hl']
    exact nodupKeys_lpSet _ _ _ h5
  · rw [hl']
    intro q hq
    rcases mem_lpSet _ _ _ q hq with rfl | hql
    · show (0:ℚ) ≤ lpGet s.lp_tokens k + m
      have := lpGet_nonneg s.lp_tokens k h6
      linarith
    · exact h6 q hql
theorem InvAux_add (s : PoolState) (bal : ℚ) (p : Addr) (aa au : ℚ)
    (gw : GroupResult) (hs : InvAux s) (haa : 0 < aa) (hau : 0 < au) :
    InvAux (add_liquidity s bal p aa au gw).1 := by
  have h1a := hs.1.1
  have h1b := hs.1.2.1
  unfold add_liquidity
  split
  · exact hs
  · cases gw with
    | failed => exact hs
    | confirmed =>
      exact InvAux_credit s p (aa + au) aa au _ hs rfl rfl rfl rfl
        (by linarith) (by linarith) (Or.inl (by linarith)) (by linarith)

theorem InvAux_swapAB (s : PoolState) (t : Addr) (a : ℚ) (gw : GroupResult)
    (hs : InvAux s) (ha : 0 < a) (hout : swapABout a ≤ s.pool_UCTZAR) :
    InvAux (trade_algo_uctzar s t a gw).1 := by
  have h1a := hs.1.1
  have h1b := hs.1.2.1
  have hnet : 0 < a - a * (3/1000) := by linarith
  have hout' : (a - a * (3/1000)) * 2 ≤ s.pool_UCTZAR := by
    simpa [swapABout] using hout
  cases gw with
  | failed => exact hs
  | confirmed =>
    refine InvAux_credit s t ((a - a * (3/1000)) + (a - a * (3/1000)) * 2)
      (a - a * (3/1000)) (-((a - a * (3/1000)) * 2)) _ hs rfl ?_ rfl rfl
      (by linarith) (by linarith) (Or.inl (by linarith)) (by linarith)
    show s.pool_UCTZAR - (a - a * (3/1000)) * 2
        = s.pool_UCTZAR + -((a - a * (3/1000)) * 2)
    ring

theorem InvAux_swapBA (s : PoolState) (t : Addr) (a : ℚ) (gw : GroupResult)
    (hs : InvAux s) (ha : 0 < a) (hout : swapBAout a ≤ s.pool_ALGO) :
    InvAux (trade_uctzar_algo s t a gw).1 := by
  have h1a := hs.1.1
  have h1b := hs.1.2.1
  have hnet : 0 < a - a * (3/1000) := by linarith
  have hout' : (a - a * (3/1000)) / 2 ≤ s.pool_ALGO := by
    simpa [swapBAout] using hout
  cases gw with
  | failed => exact hs
  | confirmed =>
    refine InvAux_credit s t ((a - a * (3/1000)) + (a - a * (3/1000)) / 2)
      (-((a - a * (3/1000)) / 2)) (a - a * (3/1000)) _ hs ?_ rfl rfl rfl
      (by linarith) (by linarith) (Or.inr (by linarith)) (by linarith)
    show s.pool_ALGO - (a - a * (3/1000)) / 2
        = s.pool_ALGO + -((a - a * (3/1000)) / 2)
    ring

theorem InvAux_debit (s : PoolState) (p : Addr) (s' : PoolState)
    (hs : InvAux s)
    (hmem : lpMem s.lp_tokens p = true)
    (hg : lpGet s.lp_tokens p ≠ 0)
    (hA' : s'.pool_ALGO
      = s.pool_ALGO - lpGet s.lp_tokens p / s.total_lp_tokens * s.pool_ALGO)
    (hU' : s'.pool_UCTZAR
      = s.pool_UCTZAR - lpGet s.lp_tokens p / s.total_lp_tokens * s.pool_UCTZAR)
    (hT' : s'.total_lp_tokens = s.total_lp_tokens - lpGet s.lp_tokens p)
    (hl' : s'.lp_tokens = lpDel s.lp_tokens p) : InvAux s' := by
  obtain ⟨⟨h1a, h1b, h1c⟩, h2, h3, h4, h5, h6⟩ := hs
  have h2' : s.total_lp_tokens = 0 ↔ (s.pool_ALGO = 0 ∧ s.pool_UCTZAR = 0) := h2
  have h3' : lpSum s.lp_tokens = s.total_lp_tokens := h3
  have h4' : ∀ q ∈ s.lp_tokens, q.2 ≤ s.total_lp_tokens := h4
  have hg0 : 0 ≤ lpGet s.lp_tokens p := lpGet_nonneg _ _ h6
  have hgpos : 0 < lpGet s.lp_tokens p := lt_of_le_of_ne hg0 (Ne.symm hg)
  have hgT : lpGet s.lp_tokens p ≤ s.total_lp_tokens :=
    h4' _ (lpGet_mem _ _ hmem)
  have hT : 0 < s.total_lp_tokens := lt_of_lt_of_le hgpos hgT
  have hTne : s.total_lp_tokens ≠ 0 := ne_of_gt hT
  have hfrac : lpGet s.lp_tokens p / s.total_lp_tokens ≤ 1 :=
    (div_le_one hT).mpr hgT
  have hfracpos : 0 < lpGet s.lp_tokens p / s.total_lp_tokens :=
    div_pos hgpos hT
  have hmulA : lpGet s.lp_tokens p / s.total_lp_tokens * s.pool_ALGO
      ≤ 1 * s.pool_ALGO := mul_le_mul_of_nonneg_right hfrac h1a
  have hmulU : lpGet s.lp_tokens p / s.total_lp_tokens * s.pool_UCTZAR
      ≤ 1 * s.pool_UCTZAR := mul_le_mul_of_nonneg_right hfrac h1b
  refine ⟨⟨?_, ?_, ?_⟩, ?_, ?_, ?_, ?_, ?_⟩
  · rw [hA']
    linarith
  · rw [hU']
    linarith
  · rw [hT']
    linarith
  · show s'.total_lp_tokens = 0 ↔ (s'.pool_ALGO = 0 ∧ s'.pool_UCTZAR = 0)
    rw [hT', hA', hU']
    constructor
    · intro h0
      have hgTeq : lpGet s.lp_tokens p = s.total_lp_tokens := by linarith
      have hone : lpGet s.lp_tokens p / s.total_lp_tokens = 1 := by
        rw [hgTeq]
        exact div_self hTne
      constructor
      · rw [hone]
        ring
      · rw [hone]
        ring
    · rintro ⟨hA0, hU0⟩
      by_contra hne
      have hfne : (1 : ℚ) - lpGet s.lp_tokens p / s.total_lp_tokens ≠ 0 := by
        intro h1
        have hone : lpGet s.lp_tokens p / s.total_lp_tokens = 1 := by linarith
        have hgTeq : lpGet s.lp_tokens p = s.total_lp_tokens := by
          calc lpGet s.lp_tokens p
              = lpGet s.lp_tokens p / s.total_lp_tokens * s.total_lp_tokens := by
                field_simp
            _ = 1 * s.total_lp_tokens := by rw [hone]
            _ = s.total_lp_tokens := one_mul _
        exact hne (by linarith)
      have hA00 : s.pool_ALGO = 0 := by
        have hA0' : s.pool_ALGO
            * (1 - lpGet s.lp_tokens p / s.total_lp_tokens) = 0 := by
          linear_combination hA0
        rcases mul_eq_zero.mp hA0' with h | h
        · exact h
        · exact absurd h hfne
      have hU00 : s.pool_UCTZAR = 0 := by
        have hU0' : s.pool_UCTZAR
            * (1 - lpGet s.lp_tokens p / s.total_lp_tokens) = 0 := by
          linear_combination hU0
        rcases mul_eq_zero.mp hU0' with h | h
        · exact h
        · exact absurd h hfne
      have : s.total_lp_tokens = 0 := h2'.mpr ⟨hA00, hU00⟩
      linarith
  · show lpSum s'.lp_tokens = s'.total_lp_tokens
    rw [hl', hT', lpSum_lpDel _ _ h5, h3']
  · show ∀ q ∈ s'.lp_tokens, q.2 ≤ s'.total_lp_tokens
    rw [hl', hT']
    intro q hq
    have hnn : ∀ r ∈ lpDel s.lp_tokens p, 0 ≤ r.2 :=
      fun r hr => h6 r (mem_lpDel _ _ r hr).1
    have hle : q.2 ≤ lpSum (lpDel s.lp_tokens p) := member_le_lpSum _ q hq hnn
    rw [lpSum_lpDel _ _ h5, h3'] at hle
    exact hle
  · rw [hl']
    exact List.Nodup.sublist (keys_lpDel_sublist _ _) h5
  · rw [hl']
    intro q hq
    exact h6 q (mem_lpDel _ _ q hq).1

theorem InvAux_remove (s : PoolState) (p : Addr) (gw : GroupResult)
    (hs : InvAux s) : InvAux (remove_liquidity s p gw).1 := by
  unfold remove_liquidity
  split
  · exact hs
  next hmem =>
    have hmem' : lpMem s.lp_tokens p = true := by
      revert hmem
      cases lpMem s.lp_tokens p <;> simp
    dsimp only
    cases gw with
    | failed =>
      split
      · exact hs
      · split
        · exact hs
        · exact hs
    | confirmed =>
      split
      · exact hs
      next htok =>
        split
        · exact hs
        · exact InvAux_debit s p _ hs hmem' htok rfl rfl rfl rfl

theorem InvAux_runOp (s : PoolState) (op : Op) (gw : GroupResult)
    (hs : InvAux s) (hg : Guard s op) : InvAux (runOp s op gw).1 := by
  cases op with
  | add bal p aa au => exact InvAux_add s bal p aa au gw hs hg.1 hg.2
  | swapAB t a => exact InvAux_swapAB s t a gw hs hg.1 hg.2
  | swapBA t a => exact InvAux_swapBA s t a gw hs hg.1 hg.2
  | remove p => exact InvAux_remove s p gw hs

theorem InvAux_runOps (s : PoolState) (l : List (Op × GroupResult))
    (hs : InvAux s) (h : GuardedRun s l) : InvAux (runOps s l) := by
  induction l generalizing s with
  | nil => exact hs
  | cons x rest ih =>
    obtain ⟨op, gw⟩ := x
    exact ih (runOp s op gw).1 (InvAux_runOp s op gw hs h.1) h.2

theorem InvAux_initPool : InvAux initPool := by
  refine ⟨⟨le_refl 0, le_refl 0, le_refl 0⟩, ?_, rfl, ?_, ?_, ?_⟩
  · show (0:ℚ) = 0 ↔ ((0:ℚ) = 0 ∧ (0:ℚ) = 0)
    simp
  · intro q hq
    simp [initPool] at hq
  · simp [initPool]
  · intro q hq
    simp [initPool] at hq

/-- C2: the claim says a confirmed swap increases the input-asset reserve
by `net_input + fee = input_amount`. The code adds only `net_input`: from
reserves `(1, 10)`, a confirmed `trade_algo_uctzar` of `0.1` ALGO leaves
`pool_ALGO = 1 + 0.0997`, not `1 + 0.1` — the fee is never added to the
input reserve, contradicting the code's own print statement
`"Trade fee of ... ALGO added to the pool."`. -/
theorem c2_fee_accrual_bug :
    (trade_algo_uctzar ⟨1, 10, 0, []⟩ "t" (1/10) .confirmed).1.pool_ALGO
        = 1 + 997/10000 ∧
    (1 + 997/10000 : ℚ) ≠ 1 + 1/10 := by
  constructor
  · show (1 : ℚ) + (1/10 - 1/10 * (3/1000)) = 1 + 997/10000
    norm_num
  · norm_num

/-- C4: if the settlement group fails, every operation leaves the pool
ledger bit-for-bit unchanged; and for an operation that reaches
submission (swaps always do; `add_liquidity` after its balance check;
`remove_liquidity` after its share lookup and the division that raises
`ZeroDivisionError` on a zero share supply) the state delta is applied
(outcome `committed`) iff the gateway confirms the group. -/
theorem c4_atomicity (s : PoolState) (bal : ℚ) (p t : Addr) (aa au a : ℚ)
    (gw : GroupResult) :
    (add_liquidity s bal p aa au .failed).1 = s ∧
    (trade_algo_uctzar s t a .failed).1 = s ∧
    (trade_uctzar_algo s t a .failed).1 = s ∧
    (remove_liquidity s p .failed).1 = s ∧
    ((trade_algo_uctzar s t a gw).2 = .committed ↔ gw = .confirmed) ∧
    ((trade_uctzar_algo s t a gw).2 = .committed ↔ gw = .confirmed) ∧
    (¬ bal < aa + 1/1000 →
      ((add_liquidity s bal p aa au gw).2 = .committed ↔ gw = .confirmed)) ∧
    (lpMem s.lp_tokens p = true → lpGet s.lp_tokens p ≠ 0 →
      s.total_lp_tokens ≠ 0 →
      ((remove_liquidity s p gw).2 = .committed ↔ gw = .confirmed)) := by
  refine ⟨?_, rfl, rfl, ?_, ?_, ?_, ?_, ?_⟩
  · unfold add_liquidity
    split
    · rfl
    · rfl
  · unfold remove_liquidity
    split
    · rfl
    · dsimp only
      split
      · rfl
      · split
        · rfl
        · rfl
  · cases gw with
    | confirmed => exact ⟨fun _ => rfl, fun _ => rfl⟩
    | failed => exact ⟨fun h => (nomatch h), fun h => (nomatch h)⟩
  · cases gw with
    | confirmed => exact ⟨fun _ => rfl, fun _ => rfl⟩
    | failed => exact ⟨fun h => (nomatch h), fun h => (nomatch h)⟩
  · intro hbal
    unfold add_liquidity
    rw [if_neg hbal]
    cases gw with
    | confirmed => exact ⟨fun _ => rfl, fun _ => rfl⟩
    | failed => exact ⟨fun h => (nomatch h), fun h => (nomatch h)⟩
  · intro hmem htok htot
    have hc1 : ¬ (lpMem s.lp_tokens p = false) := by simp [hmem]
    unfold remove_liquidity
    rw [if_neg hc1]
    dsimp only
    rw [if_neg htok, if_neg htot]
    cases gw with
    | confirmed => exact ⟨fun _ => rfl, fun _ => rfl⟩
    | failed => exact ⟨fun h => (nomatch h), fun h => (nomatch h)⟩

/-- C4 witness: the atomicity statement instantiated at a concrete
ledger, amounts, and a failed gateway outcome. -/
theorem c4_atomicity_witness :
    (add_liquidity ⟨1, 2, 3, [("p", 3)]⟩ 1 "p" (1/2) 1 .failed).1
        = (⟨1, 2, 3, [("p", 3)]⟩ : PoolState) ∧
    (trade_algo_uctzar ⟨1, 2, 3, [("p", 3)]⟩ "t" (1/10) .failed).1
        = (⟨1, 2, 3, [("p", 3)]⟩ : PoolState) ∧
    (trade_uctzar_algo ⟨1, 2, 3, [("p", 3)]⟩ "t" (1/10) .failed).1
        = (⟨1, 2, 3, [("p", 3)]⟩ : PoolState) ∧
    (remove_liquidity ⟨1, 2, 3, [("p", 3)]⟩ "p" .failed).1
        = (⟨1, 2, 3, [("p", 3)]⟩ : PoolState) ∧
    ((trade_algo_uctzar ⟨1, 2, 3, [("p", 3)]⟩ "t" (1/10) .failed).2
        = .committed ↔ GroupResult.failed = .confirmed) ∧
    ((trade_uctzar_algo ⟨1, 2, 3, [("p", 3)]⟩ "t" (1/10) .failed).2
        = .committed ↔ GroupResult.failed = .confirmed) ∧
    (¬ (1:ℚ) < 1/2 + 1/1000 →
      ((add_liquidity ⟨1, 2, 3, [("p", 3)]⟩ 1 "p" (1/2) 1 .failed).2
        = .committed ↔ GroupResult.failed = .confirmed)) ∧
    (lpMem (⟨1, 2, 3, [("p", 3)]⟩ : PoolState).lp_tokens "p" = true →
      lpGet (⟨1, 2, 3, [("p", 3)]⟩ : PoolState).lp_tokens "p" ≠ 0 →
      (⟨1, 2, 3, [("p", 3)]⟩ : PoolState).total_lp_tokens ≠ 0 →
      ((remove_liquidity ⟨1, 2, 3, [("p", 3)]⟩ "p" .failed).2
        = .committed ↔ GroupResult.failed = .confirmed)) :=
  c4_atomicity ⟨1, 2, 3, [("p", 3)]⟩ 1 "p" "t" (1/2) 1 (1/10) .failed

/-- C5: a committed `add_liquidity` (balance check passed, gateway
confirmed) mints `amount_algo + amount_uctzar` LP tokens, grows each
reserve by the deposited amount, and credits both `total_lp_tokens` and
the provider's recorded balance by the minted amount; the same additive
rule applies at genesis and for every later deposit. -/
theorem c5_add_liquidity (s : PoolState) (bal : ℚ) (p : Addr) (aa au : ℚ)
    (haa : 0 < aa) (hau : 0 < au) (hbal : ¬ bal < aa + 1/1000) :
    (add_liquidity s bal p aa au .confirmed).2 = .committed ∧
    (add_liquidity s bal p aa au .confirmed).1.pool_ALGO = s.pool_ALGO + aa ∧
    (add_liquidity s bal p aa au .confirmed).1.pool_UCTZAR
        = s.pool_UCTZAR + au ∧
    (add_liquidity s bal p aa au .confirmed).1.total_lp_tokens
        = s.total_lp_tokens + (aa + au) ∧
    lpGet (add_liquidity s bal p aa au .confirmed).1.lp_tokens p
        = lpGet s.lp_tokens p + (aa + au) := by
  unfold add_liquidity
  rw [if_neg hbal]
  exact ⟨rfl, rfl, rfl, rfl, lpGet_lpSet_self _ _ _⟩

/-- C5 witness: the genesis-deposit scenario `amount_a = 0.5`,
`amount_b = 1.0` yields `total_shares = 1.5`, `reserve_a = 0.5`,
`reserve_b = 1.0`, provider shares `1.5`. -/
theorem c5_add_liquidity_witness :
    ((0:ℚ) < 1/2 ∧ (0:ℚ) < 1 ∧ ¬ (1:ℚ) < 1/2 + 1/1000) ∧
    ((add_liquidity initPool 1 "p" (1/2) 1 .confirmed).2 = .committed ∧
      (add_liquidity initPool 1 "p" (1/2) 1 .confirmed).1.pool_ALGO
          = initPool.pool_ALGO + 1/2 ∧
      (add_liquidity initPool 1 "p" (1/2) 1 .confirmed).1.pool_UCTZAR
          = initPool.pool_UCTZAR + 1 ∧
      (add_liquidity initPool 1 "p" (1/2) 1 .confirmed).1.total_lp_tokens
          = initPool.total_lp_tokens + (1/2 + 1) ∧
      lpGet (add_liquidity initPool 1 "p" (1/2) 1 .confirmed).1.lp_tokens "p"
          = lpGet initPool.lp_tokens "p" + (1/2 + 1)) :=
  ⟨⟨by norm_num, by norm_num, by norm_num⟩,
    c5_add_liquidity initPool 1 "p" (1/2) 1 (by norm_num) (by norm_num)
      (by norm_num)⟩

/-- C7: for either swap direction with positive input, the fee is
`0.3%` of the input, the output is `net * 2` (ALGO→UCTZAR) respectively
`net / 2` (UCTZAR→ALGO) where `net = input - fee`, and the trader's
recorded LP-token balance grows by exactly `net + output`. -/
theorem c7_swap_pricing (s : PoolState) (t : Addr) (a : ℚ) (h : 0 < a) :
    ((trade_algo_uctzar s t a .confirmed).1.pool_UCTZAR
        = s.pool_UCTZAR - (a - a * (3/1000)) * 2 ∧
      lpGet (trade_algo_uctzar s t a .confirmed).1.lp_tokens t
        = lpGet s.lp_tokens t + ((a - a * (3/1000)) + (a - a * (3/1000)) * 2)) ∧
    ((trade_uctzar_algo s t a .confirmed).1.pool_ALGO
        = s.pool_ALGO - (a - a * (3/1000)) / 2 ∧
      lpGet (trade_uctzar_algo s t a .confirmed).1.lp_tokens t
        = lpGet s.lp_tokens t + ((a - a * (3/1000)) + (a - a * (3/1000)) / 2)) :=
  ⟨⟨rfl, lpGet_lpSet_self _ _ _⟩, ⟨rfl, lpGet_lpSet_self _ _ _⟩⟩

/-- C7 witness: the scenario `input = 0.1` ALGO, for which
`fee = 0.0003`, `net = 0.0997`, `output = 0.1994`, and the trader's LP
balance grows by `net + output = 0.2991`. -/
theorem c7_swap_pricing_witness :
    (0:ℚ) < 1/10 ∧
    (((trade_algo_uctzar initPool "t" (1/10) .confirmed).1.pool_UCTZAR
        = initPool.pool_UCTZAR - (1/10 - 1/10 * (3/1000)) * 2 ∧
      lpGet (trade_algo_uctzar initPool "t" (1/10) .confirmed).1.lp_tokens "t"
        = lpGet initPool.lp_tokens "t"
          + ((1/10 - 1/10 * (3/1000)) + (1/10 - 1/10 * (3/1000)) * 2)) ∧
    ((trade_uctzar_algo initPool "t" (1/10) .confirmed).1.pool_ALGO
        = initPool.pool_ALGO - (1/10 - 1/10 * (3/1000)) / 2 ∧
      lpGet (trade_uctzar_algo initPool "t" (1/10) .confirmed).1.lp_tokens "t"
        = lpGet initPool.lp_tokens "t"
          + ((1/10 - 1/10 * (3/1000)) + (1/10 - 1/10 * (3/1000)) / 2))) :=
  ⟨by norm_num, c7_swap_pricing initPool "t" (1/10) (by norm_num)⟩

/-- C9: a provider recorded with zero shares — in particular any
provider against the empty genesis pool — makes `remove_liquidity` fail
on one of its two no-position paths (the raising dict access for an
absent provider, the silent return for a zero entry), with the ledger
unchanged; no other error kind (in particular no invariant-violation
kind, which does not exist in the code) can occur. -/
theorem c9_no_position (s : PoolState) (p : Addr) (gw : GroupResult)
    (h : lpGet s.lp_tokens p = 0) :
    (remove_liquidity s p gw).1 = s ∧
    ((remove_liquidity s p gw).2 = .keyError ∨
      (remove_liquidity s p gw).2 = .noLpTokens) := by
  unfold remove_liquidity
  cases hm : lpMem s.lp_tokens p with
  | false =>
    rw [if_pos rfl]
    exact ⟨rfl, Or.inl rfl⟩
  | true =>
    rw [if_neg (by simp)]
    dsimp only
    rw [if_pos h]
    exact ⟨rfl, Or.inr rfl⟩

/-- C9 witness: removing liquidity for a provider against the empty
genesis pool (`total_lp_tokens = 0`). -/
theorem c9_no_position_witness :
    lpGet initPool.lp_tokens "x" = 0 ∧
    ((remove_liquidity initPool "x" .confirmed).1 = initPool ∧
      ((remove_liquidity initPool "x" .confirmed).2 = .keyError ∨
        (remove_liquidity initPool "x" .confirmed).2 = .noLpTokens)) :=
  ⟨rfl, c9_no_position initPool "x" .confirmed rfl⟩

/-- C10: the only pre-submission validation in `add_liquidity` is the
comparison of the provider's ALGO balance against `amount_algo + 0.001`:
when it fails the method returns normally (no exception) with the ledger
untouched, and the UCTZAR amount never influences which code path is
taken (for any balance, the outcome is the same for any two UCTZAR
amounts). -/
theorem c10_add_balance_check_only (s : PoolState) (bal bal2 : ℚ)
    (p : Addr) (aa au au' : ℚ) (gw : GroupResult)
    (hbal : bal < aa + 1/1000) :
    add_liquidity s bal p aa au gw = (s, .insufficientBalanceReturn) ∧
    (add_liquidity s bal2 p aa au gw).2
        = (add_liquidity s bal2 p aa au' gw).2 := by
  constructor
  · unfold add_liquidity
    rw [if_pos hbal]
  · unfold add_liquidity
    by_cases h2 : bal2 < aa + 1/1000
    · rw [if_pos h2, if_pos h2]
    · rw [if_neg h2, if_neg h2]
      cases gw with
      | failed => rfl
      | confirmed => rfl

/-- C10 witness: a provider with balance `0` fails the check for
`amount_algo = 0.5` and the call is a silent no-op; with balance `5` the
outcome is independent of the UCTZAR amount (`1` versus `7`). -/
theorem c10_add_balance_check_witness :
    (0:ℚ) < 1/2 + 1/1000 ∧
    (add_liquidity initPool 0 "p" (1/2) 1 .confirmed
        = (initPool, .insufficientBalanceReturn) ∧
      (add_liquidity initPool 5 "p" (1/2) 1 .confirmed).2
        = (add_liquidity initPool 5 "p" (1/2) 7 .confirmed).2) :=
  ⟨by norm_num,
    c10_add_balance_check_only initPool 0 5 "p" (1/2) 1 7 .confirmed
      (by norm_num)⟩

/-- C6: a committed `remove_liquidity` for a provider holding `s > 0`
shares out of `T > 0` pays out `(s/T)` of each reserve, decreases the
reserves by exactly those payouts, decreases `total_lp_tokens` by `s`,
and removes the provider's entry from the mapping entirely. -/
theorem c6_remove_liquidity (s : PoolState) (p : Addr)
    (hmem : lpMem s.lp_tokens p = true)
    (hpos : 0 < lpGet s.lp_tokens p)
    (hT : 0 < s.total_lp_tokens) :
    (remove_liquidity s p .confirmed).2 = .committed ∧
    (remove_liquidity s p .confirmed).1.pool_ALGO
      = s.pool_ALGO - lpGet s.lp_tokens p / s.total_lp_tokens * s.pool_ALGO ∧
    (remove_liquidity s p .confirmed).1.pool_UCTZAR
      = s.pool_UCTZAR - lpGet s.lp_tokens p / s.total_lp_tokens * s.pool_UCTZAR ∧
    (remove_liquidity s p .confirmed).1.total_lp_tokens
      = s.total_lp_tokens - lpGet s.lp_tokens p ∧
    lpMem (remove_liquidity s p .confirmed).1.lp_tokens p = false := by
  have hc1 : ¬ (lpMem s.lp_tokens p = false) := by simp [hmem]
  have hc2 : ¬ (lpGet s.lp_tokens p = 0) := ne_of_gt hpos
  have hc3 : ¬ (s.total_lp_tokens = 0) := ne_of_gt hT
  unfold remove_liquidity
  rw [if_neg hc1]
  dsimp only
  rw [if_neg hc2, if_neg hc3]
  exact ⟨rfl, rfl, rfl, rfl, lpMem_lpDel_self _ _⟩

/-- C6 witness: the scenario `shares = 1.5` out of `total = 3.0` with
reserves `(1, 2)`: payouts `(0.5, 1.0)`, entry removed, total `1.5`. -/
theorem c6_remove_liquidity_witness :
    (lpMem (⟨1, 2, 3, [("p", 3/2), ("q", 3/2)]⟩ : PoolState).lp_tokens "p"
        = true ∧
      (0:ℚ) < lpGet (⟨1, 2, 3, [("p", 3/2), ("q", 3/2)]⟩
        : PoolState).lp_tokens "p" ∧
      (0:ℚ) < (⟨1, 2, 3, [("p", 3/2), ("q", 3/2)]⟩
        : PoolState).total_lp_tokens) ∧
    ((remove_liquidity ⟨1, 2, 3, [("p", 3/2), ("q", 3/2)]⟩ "p" .confirmed).2
        = .committed ∧
      (remove_liquidity ⟨1, 2, 3, [("p", 3/2), ("q", 3/2)]⟩ "p"
          .confirmed).1.pool_ALGO
        = (⟨1, 2, 3, [("p", 3/2), ("q", 3/2)]⟩ : PoolState).pool_ALGO
          - lpGet (⟨1, 2, 3, [("p", 3/2), ("q", 3/2)]⟩
              : PoolState).lp_tokens "p"
            / (⟨1, 2, 3, [("p", 3/2), ("q", 3/2)]⟩
              : PoolState).total_lp_tokens
            * (⟨1, 2, 3, [("p", 3/2), ("q", 3/2)]⟩ : PoolState).pool_ALGO ∧
      (remove_liquidity ⟨1, 2, 3, [("p", 3/2), ("q", 3/2)]⟩ "p"
          .confirmed).1.pool_UCTZAR
        = (⟨1, 2, 3, [("p", 3/2), ("q", 3/2)]⟩ : PoolState).pool_UCTZAR
          - lpGet (⟨1, 2, 3, [("p", 3/2), ("q", 3/2)]⟩
              : PoolState).lp_tokens "p"
            / (⟨1, 2, 3, [("p", 3/2), ("q", 3/2)]⟩
              : PoolState).total_lp_tokens
            * (⟨1, 2, 3, [("p", 3/2), ("q", 3/2)]⟩ : PoolState).pool_UCTZAR ∧
      (remove_liquidity ⟨1, 2, 3, [("p", 3/2), ("q", 3/2)]⟩ "p"
          .confirmed).1.total_lp_tokens
        = (⟨1, 2, 3, [("p", 3/2), ("q", 3/2)]⟩ : PoolState).total_lp_tokens
          - lpGet (⟨1, 2, 3, [("p", 3/2), ("q", 3/2)]⟩
              : PoolState).lp_tokens "p" ∧
      lpMem (remove_liquidity ⟨1, 2, 3, [("p", 3/2), ("q", 3/2)]⟩ "p"
          .confirmed).1.lp_tokens "p" = false) :=
  ⟨⟨by simp [lpMem], by norm_num [lpGet], by norm_num⟩,
    c6_remove_liquidity ⟨1, 2, 3, [("p", 3/2), ("q", 3/2)]⟩ "p"
      (by simp [lpMem]) (by norm_num [lpGet]) (by norm_num)⟩

/-- C3 counterexample: from reserves `(1, 0.1)`, a confirmed
`trade_algo_uctzar` of `1` ALGO has computed output `1.994 > 0.1`, yet
the operation is not rejected: it commits, changes the ledger, and
leaves the UCTZAR reserve negative. -/
theorem c3_liquidity_counterexample :
    swapABout 1 > (⟨1, 1/10, 11/10, [("p", 11/10)]⟩ : PoolState).pool_UCTZAR ∧
    (trade_algo_uctzar ⟨1, 1/10, 11/10, [("p", 11/10)]⟩ "t" 1 .confirmed).2
        = .committed ∧
    (trade_algo_uctzar ⟨1, 1/10, 11/10, [("p", 11/10)]⟩ "t" 1 .confirmed).1
        ≠ (⟨1, 1/10, 11/10, [("p", 11/10)]⟩ : PoolState) ∧
    (trade_algo_uctzar ⟨1, 1/10, 11/10, [("p", 11/10)]⟩ "t" 1
        .confirmed).1.pool_UCTZAR < 0 := by
  refine ⟨by norm_num [swapABout], rfl, ?_, ?_⟩
  · intro heq
    have hproj := congrArg PoolState.pool_UCTZAR heq
    norm_num [trade_algo_uctzar] at hproj
  · show (1:ℚ)/10 - (1 - 1 * (3/1000)) * 2 < 0
    norm_num

/-- C3 (amended): no `InsufficientLiquidity` check exists. A swap whose
computed output exceeds the pool's current reserve of the output asset
is not rejected: with settlement confirmed it commits and drives the
output-asset reserve negative (in either direction). -/
theorem c3_no_insufficient_liquidity_check (s : PoolState) (t : Addr)
    (a : ℚ) (hab : s.pool_UCTZAR < swapABout a)
    (hba : s.pool_ALGO < swapBAout a) :
    ((trade_algo_uctzar s t a .confirmed).2 = .committed ∧
      (trade_algo_uctzar s t a .confirmed).1.pool_UCTZAR < 0) ∧
    ((trade_uctzar_algo s t a .confirmed).2 = .committed ∧
      (trade_uctzar_algo s t a .confirmed).1.pool_ALGO < 0) := by
  simp only [swapABout] at hab
  simp only [swapBAout] at hba
  refine ⟨⟨rfl, ?_⟩, ⟨rfl, ?_⟩⟩
  · show s.pool_UCTZAR - (a - a * (3/1000)) * 2 < 0
    linarith
  · show s.pool_ALGO - (a - a * (3/1000)) / 2 < 0
    linarith

/-- C3 witness: both directions against the empty genesis pool, where
any positive output exceeds the zero reserves. -/
theorem c3_liquidity_witness :
    (initPool.pool_UCTZAR < swapABout 1 ∧
      initPool.pool_ALGO < swapBAout 1) ∧
    (((trade_algo_uctzar initPool "t" 1 .confirmed).2 = .committed ∧
        (trade_algo_uctzar initPool "t" 1 .confirmed).1.pool_UCTZAR < 0) ∧
      ((trade_uctzar_algo initPool "t" 1 .confirmed).2 = .committed ∧
        (trade_uctzar_algo initPool "t" 1 .confirmed).1.pool_ALGO < 0)) :=
  ⟨⟨by norm_num [initPool, swapABout], by norm_num [initPool, swapBAout]⟩,
    c3_no_insufficient_liquidity_check initPool "t" 1
      (by norm_num [initPool, swapABout]) (by norm_num [initPool, swapBAout])⟩

/-- C8 counterexample: a swap with input `0` — non-positive, violating
the spec's `input_amount > 0` precondition — is not detected by any
validation: both legs are built with amount `0` (accepted by the SDK's
transaction constructors), the group is submitted, and on confirmation
the operation commits and mutates the ledger, inserting a zero-valued
`lp_tokens` entry for the trader; no error kind is ever returned. -/
theorem c8_validation_counterexample :
    ¬ ((0:ℚ) > 0) ∧
    (trade_algo_uctzar initPool "t" 0 .confirmed).2 = .committed ∧
    (trade_algo_uctzar initPool "t" 0 .confirmed).1 ≠ initPool := by
  refine ⟨by norm_num, rfl, ?_⟩
  intro heq
  have hproj := congrArg PoolState.lp_tokens heq
  simp [trade_algo_uctzar, initPool, lpSet, lpGet] at hproj

/-- C8 (amended): the engine performs no validation of swap inputs. A
swap with input `0` violates the positivity precondition yet is
processed: zero-amount legs are built and submitted, and on confirmation
it commits, mutating the ledger by appending a zero-valued entry for a
new trader to `lp_tokens` — no error kind is returned and the state is
not left unmutated. (A strictly negative input likewise triggers no
engine validation; it aborts before submission only because the SDK's
transaction constructors reject negative leg amounts.) -/
theorem c8_no_swap_validation (s : PoolState) (t : Addr)
    (h : lpMem s.lp_tokens t = false) :
    (trade_algo_uctzar s t 0 .confirmed).2 = .committed ∧
    (trade_algo_uctzar s t 0 .confirmed).1.lp_tokens ≠ s.lp_tokens ∧
    (trade_uctzar_algo s t 0 .confirmed).2 = .committed ∧
    (trade_uctzar_algo s t 0 .confirmed).1.lp_tokens ≠ s.lp_tokens := by
  have hset : ∀ v : ℚ, lpSet s.lp_tokens t v = s.lp_tokens ++ [(t, v)] :=
    fun v => lpSet_append_of_not_mem s.lp_tokens t v h
  refine ⟨rfl, ?_, rfl, ?_⟩
  · show lpSet s.lp_tokens t (lpGet s.lp_tokens t
        + ((0 - 0 * (3/1000)) + (0 - 0 * (3/1000)) * 2)) ≠ s.lp_tokens
    rw [hset]
    intro heq
    have hlen := congrArg List.length heq
    simp at hlen
  · show lpSet s.lp_tokens t (lpGet s.lp_tokens t
        + ((0 - 0 * (3/1000)) + (0 - 0 * (3/1000)) / 2)) ≠ s.lp_tokens
    rw [hset]
    intro heq
    have hlen := congrArg List.length heq
    simp at hlen

/-- C8 witness: the zero-input swap in both directions against the
genesis pool, where the trader has no entry yet: each commits and
changes the share mapping. -/
theorem c8_validation_witness :
    lpMem initPool.lp_tokens "x" = false ∧
    ((trade_algo_uctzar initPool "x" 0 .confirmed).2 = .committed ∧
      (trade_algo_uctzar initPool "x" 0 .confirmed).1.lp_tokens
          ≠ initPool.lp_tokens ∧
      (trade_uctzar_algo initPool "x" 0 .confirmed).2 = .committed ∧
      (trade_uctzar_algo initPool "x" 0 .confirmed).1.lp_tokens
          ≠ initPool.lp_tokens) :=
  ⟨rfl, c8_no_swap_validation initPool "x" rfl⟩

/-- C1 counterexample: the very first committed operation from the
genesis pool can already violate I1 — a confirmed ALGO→UCTZAR swap of
`0.1` commits and leaves `pool_UCTZAR = -0.1994 < 0`, because no
liquidity check guards the subtraction. -/
theorem c1_invariants_counterexample :
    (runOp initPool (.swapAB "t" (1/10)) .confirmed).2 = .committed ∧
    ¬ I1 (runOps initPool [(.swapAB "t" (1/10), .confirmed)]) := by
  constructor
  · rfl
  · intro hI
    have h2 := hI.2.1
    have hval : (runOps initPool
        [(.swapAB "t" (1/10), .confirmed)]).pool_UCTZAR = -(1994/10000) := by
      show (0:ℚ) - (1/10 - 1/10 * (3/1000)) * 2 = -(1994/10000)
      norm_num
    rw [hval] at h2
    norm_num at h2

/-- C1 (amended): for every sequence of operations from the genesis pool
in which each add deposits strictly positive amounts and each swap has
strictly positive input whose computed output does not exceed the
current reserve of the output asset (`Guard`, the engine preconditions
the specification assumes but the code never checks), invariants I1–I4
hold after every commit: since the statement holds for every guarded
sequence, it holds for every prefix of one, i.e. after each commit. -/
theorem c1_invariants_after_commit (l : List (Op × GroupResult))
    (h : GuardedRun initPool l) :
    I1 (runOps initPool l) ∧ I2 (runOps initPool l) ∧
      I3 (runOps initPool l) ∧ I4 (runOps initPool l) := by
  have hrun := InvAux_runOps initPool l InvAux_initPool h
  exact ⟨hrun.1, hrun.2.1, hrun.2.2.1, hrun.2.2.2.1⟩

/-- C1 witness: a guarded three-operation run (genesis deposit, a swap
whose output fits in the reserve, a full withdrawal) after which I1–I4
hold. -/
theorem c1_invariants_witness :
    GuardedRun initPool
      [(Op.add 1 "p" (1/2) 1, .confirmed),
       (Op.swapAB "t" (1/10), .confirmed),
       (Op.remove "p", .confirmed)] ∧
    (I1 (runOps initPool
        [(Op.add 1 "p" (1/2) 1, .confirmed),
         (Op.swapAB "t" (1/10), .confirmed),
         (Op.remove "p", .confirmed)]) ∧
      I2 (runOps initPool
        [(Op.add 1 "p" (1/2) 1, .confirmed),
         (Op.swapAB "t" (1/10), .confirmed),
         (Op.remove "p", .confirmed)]) ∧
      I3 (runOps initPool
        [(Op.add 1 "p" (1/2) 1, .confirmed),
         (Op.swapAB "t" (1/10), .confirmed),
         (Op.remove "p", .confirmed)]) ∧
      I4 (runOps initPool
        [(Op.add 1 "p" (1/2) 1, .confirmed),
         (Op.swapAB "t" (1/10), .confirmed),
         (Op.remove "p", .confirmed)])) :=
  ⟨by norm_num [GuardedRun, Guard, runOp, add_liquidity, trade_algo_uctzar,
      swapABout, initPool, lpSet, lpGet, lpMem],
    c1_invariants_after_commit _
      (by norm_num [GuardedRun, Guard, runOp, add_liquidity,
        trade_algo_uctzar, swapABout, initPool, lpSet, lpGet, lpMem])⟩
